import Mathlib

/-!
Shallow embedding of the core of ft2smb3.py: the Famitracker-to-SMB3
note-event extraction and byte-encoding engine.  Definitions mirror the
Python source (FTChannel.parse_chan_text, FTNote.__init__,
FTChannel.set_note_lengths, FTChannel.create_buffer, FTSong._get_segments,
FTSegment.format_smb3_asm).  Python exceptions (None dereference,
IndexError, KeyError, ValueError) are modelled by Option: a none result
means the Python code raises at that point.
-/

/-- The five supported channel kinds (FTSong.CHANNELS). -/
inductive WaveType
  | sq1
  | sq2
  | tri
  | nse
  | dpcm
deriving DecidableEq, Repr

/-- The NOTES table of the source: pitch-class names in chromatic order. -/
def NOTES : List String :=
  ["C-", "C#", "D-", "D#", "E-", "F-", "F#", "G-", "G#", "A-", "A#", "B-"]

/-- The NOISE_NOTE_BYTES dict of the source: noise note names to hardware
codes.  A name outside the table is a Python KeyError, modelled as none. -/
def NOISE_NOTE_BYTES : String → Option Nat
  | "0-" => some 2
  | "1-" => some 2
  | "2-" => some 2
  | "3-" => some 2
  | "4-" => some 2
  | "5-" => some 2
  | "6-" => some 2
  | "7-" => some 2
  | "8-" => some 2
  | "9-" => some 2
  | "A-" => some 2
  | "B-" => some 2
  | "C-" => some 2
  | "D-" => some 2
  | "E-" => some 3
  | "F-" => some 3
  | _ => none

/-- Python list.index as an Option: first index of a in the list, none if
absent (where Python raises ValueError). -/
def indexOfOpt {α : Type} [DecidableEq α] : List α → α → Option Nat
  | [], _ => none
  | x :: xs, a => if x = a then some 0 else (indexOfOpt xs a).map (· + 1)

/-- FTChannel.get_rest: the fixed rest code of a channel (1 for noise,
0x7E otherwise). -/
def get_rest (w : WaveType) : Nat := if w = .nse then 1 else 0x7E

/-- One note event (FTNote).  `row` is the row counter value at creation
(the source increments total_rows before parsing, so rows are 1-based);
`length` is filled in later by set_note_lengths (Python int, so Int). -/
structure FTNote where
  row : Nat
  notebyte : Nat
  length : Int
  wavetype : WaveType
deriving DecidableEq, Repr

/-- FTNote.is_rest: whether the note byte equals the channel rest code. -/
def FTNote.is_rest (n : FTNote) : Bool := n.notebyte == get_rest n.wavetype

/-- One channel's column of one ROW line, pre-split as in the source's
get_note_field / get_octave_field / get_volume_field accessors: `note` is
the first token without its last character (e.g. "C-", "..", "--"),
`octave` is the last character of the first token parsed as a number (only
read for pulse/triangle pitches), `volume` is the third token. -/
structure ChanText where
  note : String
  octave : Nat
  volume : String
deriving DecidableEq, Repr

/-- FTNote.__init__: rest flag wins, then clone, then the channel-specific
note-code computation.  Unknown note names are Python lookup errors
(none).  For pulse/triangle the source computes
NOTES.index(note)*2 + (octave-1)*24 with Python ints; octave ≥ 1 in all
supported inputs, matching Nat subtraction here. -/
def mkFTNote (w : WaveType) (row : Nat) (ct : ChanText) (rest : Bool)
    (clone : Option FTNote) : Option FTNote :=
  if rest then some ⟨row, get_rest w, 0, w⟩
  else
    match clone with
    | some c => some ⟨row, c.notebyte, 0, w⟩
    | none =>
      match w with
      | .nse => (NOISE_NOTE_BYTES ct.note).map fun b => ⟨row, b, 0, w⟩
      | .dpcm => (indexOfOpt NOTES ct.note).map fun i => ⟨row, i + 1, 0, w⟩
      | _ => (indexOfOpt NOTES ct.note).map fun i =>
          ⟨row, i * 2 + (ct.octave - 1) * 24, 0, w⟩

/-- The song-level last_two_noise_notes pair (most recent, second most
recent noise note of the whole song). -/
abbrev NseCarry := Option FTNote × Option FTNote

/-- FTChannel.parse_chan_text: classify one row's column and possibly
append a note.  Returns the updated notes list and carry, or none where
the Python raises:
* carry.1 = none when the clone condition dereferences it
  (last_two_noise_notes[0].is_rest() on None),
* notes[-2] on a list of fewer than two notes (IndexError),
* an unknown note name (lookup error in FTNote.__init__). -/
def parse_chan_text (w : WaveType) (row : Nat) (ct : ChanText)
    (notes : List FTNote) (carry : NseCarry) :
    Option (List FTNote × NseCarry) :=
  let is_rest0 : Bool := ct.note == "--"
  let create_note : Bool := ct.note != ".." && ct.note != "--"
  let volBlock : Option (Bool × Bool) :=
    if w ≠ .tri ∧ w ≠ .dpcm then
      if ct.volume = "0" then some (true, false)
      else
        if ct.note = ".." ∧ ct.volume ≠ "." ∧ w = .nse then
          match carry.1 with
          | none => none
          | some r => some (is_rest0, r.is_rest)
        else some (is_rest0, false)
    else some (is_rest0, false)
  match volBlock with
  | none => none
  | some (is_rest1, is_clone) =>
    let cloneobj? : Option (Option FTNote) :=
      if is_clone ∧ w = .nse ∧ carry.2.isSome then some carry.2
      else if is_clone then (notes.reverse[1]?).map some
      else some none
    match cloneobj? with
    | none => none
    | some cloneobj =>
      if create_note ∨ is_clone ∨ is_rest1 then
        match mkFTNote w row ct is_rest1 cloneobj with
        | none => none
        | some nb =>
          let carry2 : NseCarry := if w = .nse then (some nb, carry.1) else carry
          some (notes ++ [nb], carry2)
      else some (notes, carry)

/-- The FTSegment parsing loop restricted to one channel: total_rows is
incremented before each row is parsed, so the k-th ROW line is parsed
with row = k (1-based). -/
def parse_rows (w : WaveType) : List ChanText → Nat → List FTNote → NseCarry →
    Option (List FTNote × NseCarry)
  | [], _, notes, c => some (notes, c)
  | ct :: rest, total, notes, c =>
    match parse_chan_text w (total + 1) ct notes c with
    | none => none
    | some (n2, c2) => parse_rows w rest (total + 1) n2 c2

/-- Insert a duration into the rest array only if not already present
(the two `if curr.length not in rest_array` checks of set_note_lengths). -/
def insertLen (ra : List Int) (l : Int) : List Int :=
  if l ∈ ra then ra else ra ++ [l]

/-- FTChannel.set_note_lengths: each note's length is the row-delta to the
next note; the last note's length is last_row minus its row; each length
is inserted into the rest array when new.  The source only prints a
warning when the rest array exceeds 16 entries and continues normally. -/
def set_note_lengths : List FTNote → Nat → List Int → List FTNote × List Int
  | [], _, ra => ([], ra)
  | [n], last_row, ra =>
    let len : Int := (last_row : Int) - (n.row : Int)
    ([{ n with length := len }], insertLen ra len)
  | n :: m :: rest, last_row, ra =>
    let len : Int := (m.row : Int) - (n.row : Int)
    let r := set_note_lengths (m :: rest) last_row (insertLen ra len)
    ({ n with length := len } :: r.1, r.2)

/-- The loop body of FTChannel.create_buffer over notes[1:]: emit a length
opcode 0xA0|index only when the length differs from last_len, then the
note byte. -/
def encodeFrom (ra : List Int) : List FTNote → Int → Option (List Nat)
  | [], _ => some []
  | n :: rest, last_len =>
    if n.length ≠ last_len then
      match indexOfOpt ra n.length with
      | none => none
      | some i =>
        (encodeFrom ra rest n.length).map fun t => (i ||| 0xa0) :: n.notebyte :: t
    else
      (encodeFrom ra rest last_len).map fun t => n.notebyte :: t

/-- The buffer produced by create_buffer before the master-channel
terminator: first note always gets its length opcode and note byte.  A
length missing from the rest array is a Python ValueError (none). -/
def bufferCore (notes : List FTNote) (ra : List Int) : Option (List Nat) :=
  match notes with
  | [] => some []
  | n1 :: rest =>
    match indexOfOpt ra n1.length with
    | none => none
    | some i =>
      (encodeFrom ra rest n1.length).map fun t => (i ||| 0xa0) :: n1.notebyte :: t

/-- FTChannel.create_buffer: empty channels return with an empty buffer
before the terminator logic; otherwise the core bytes receive a trailing
0x00 exactly when the channel is sq2 (the master channel) or nse. -/
def create_buffer (w : WaveType) (notes : List FTNote) (ra : List Int) :
    Option (List Nat) :=
  match notes with
  | [] => some []
  | _ :: _ =>
    (bufferCore notes ra).map fun core =>
      core ++ (if w = .sq2 ∨ w = .nse then [0] else [])

/-- One channel of one segment, end to end as FTSegment.__init__ drives it:
parse all ROW lines (the row counter incremented before each parse), set
note lengths against a fresh rest array, then create the buffer. -/
def run_channel (w : WaveType) (rows : List ChanText) (c0 : NseCarry) :
    Option (List FTNote × List Int × List Nat) :=
  match parse_rows w rows 0 [] c0 with
  | none => none
  | some (notes, _) =>
    let r := set_note_lengths notes rows.length []
    match create_buffer w r.1 r.2 with
    | none => none
    | some buf => some (r.1, r.2, buf)

/-- The spec's decoder for the round-trip property, modelled from the
spec's words: each byte that is at least 0xA0 is a length opcode updating
the current duration via the Note Table index in its low bits; every
other byte is a note byte paired with the carried duration.  The spec
leaves the initial duration undefined, so it is an argument (any
encoder output starts with a length opcode); an out-of-range index keeps
the carried duration. -/
def specDecode (ra : List Int) : List Nat → Int → List (Nat × Int)
  | [], _ => []
  | b :: rest, cur =>
    if 0xa0 ≤ b then specDecode ra rest (ra.getD (b - 0xa0) cur)
    else (b, cur) :: specDecode ra rest cur

/-- One line of the exported text, at line granularity: whether it is a
ROW line and which segment marker Cxx (by its number) it contains, if
any. -/
structure TLine where
  isRow : Bool
  marker : Option Nat
deriving DecidableEq, Repr

/-- re.search of the marker text over the whole contents: index of the
first line containing marker n. -/
def findMarker (lines : List TLine) (n : Nat) : Option Nat :=
  lines.findIdx? fun l => l.marker = some n

/-- tcontents.rfind of a ROW start before the marker match: the largest
line index at or before i that is a ROW line, or -1 as in Python when
there is none. -/
def rfindRowI (lines : List TLine) (i : Nat) : Int :=
  match ((List.range (i + 1)).filter fun j =>
      (lines.getD j ⟨false, none⟩).isRow).getLast? with
  | some j => (j : Int)
  | none => -1

/-- The while-loop of FTSong._get_segments: look for marker n starting at
n = 0; each found marker's row line closes the current segment and the
next segment starts at that same line.  The loop ends when marker n is
absent; lines.length + 1 rounds of fuel always reach that point since
each round consumes a distinct marker line. -/
def getSegmentsAux (lines : List TLine) : Nat → Nat → Int → List (Int × Int)
  | 0, _, _ => []
  | fuel + 1, nsegs, segstart =>
    match findMarker lines nsegs with
    | none => []
    | some i =>
      (segstart, rfindRowI lines i) ::
        getSegmentsAux lines fuel (nsegs + 1) (rfindRowI lines i)

/-- FTSong._get_segments: the initial segment start is the first ROW line
(Python raises on a file with no ROW line at all, modelled as none). -/
def get_segments (lines : List TLine) : Option (List (Int × Int)) :=
  match lines.findIdx? (fun l => l.isRow) with
  | none => none
  | some s => some (getSegmentsAux lines (lines.length + 1) 0 (s : Int))

/-- The ROW lines of a segment slice: FTSegment counts one row for each
line starting with ROW inside its half-open slice of the contents. -/
def rowIdxIn (lines : List TLine) (a b : Int) : List Nat :=
  (List.range lines.length).filter fun j =>
    a ≤ (j : Int) ∧ (j : Int) < b ∧ (lines.getD j ⟨false, none⟩).isRow

/-- The five channel buffers of one segment as FTSegment.format_smb3_asm
reads them. -/
structure SegBuffers where
  sq2buf : List Nat
  sq1buf : List Nat
  tribuf : List Nat
  nsebuf : List Nat
  dpcmbuf : List Nat

/-- The concatenated segment data in SEGMENT_DATA_CHANNELS order
(sq2, sq1, tri, nse, dpcm). -/
def segdata (b : SegBuffers) : List Nat :=
  b.sq2buf ++ b.sq1buf ++ b.tribuf ++ b.nsebuf ++ b.dpcmbuf

/-- sq1off of format_smb3_asm. -/
def sq1off (b : SegBuffers) : Nat :=
  if 0 < b.sq1buf.length then b.sq2buf.length else 0

/-- trioff of format_smb3_asm. -/
def trioff (b : SegBuffers) : Nat :=
  if 0 < b.tribuf.length then b.sq2buf.length + b.sq1buf.length else 0

/-- nseoff of format_smb3_asm. -/
def nseoff (b : SegBuffers) : Nat :=
  if 0 < b.nsebuf.length then b.sq2buf.length + b.sq1buf.length + b.tribuf.length else 0

/-- dpcmoff of format_smb3_asm. -/
def dpcmoff (b : SegBuffers) : Nat :=
  if 0 < b.dpcmbuf.length then
    b.sq2buf.length + b.sq1buf.length + b.tribuf.length + b.nsebuf.length
  else 0

/-- The channel buffers in the fixed output order, as a list. -/
def chanBufs (b : SegBuffers) : List (List Nat) :=
  [b.sq2buf, b.sq1buf, b.tribuf, b.nsebuf, b.dpcmbuf]

/-- The spec's description of a channel offset: the sum of the lengths of
all buffers preceding channel k in the fixed order, or 0 when channel k's
buffer is empty. -/
def specOffset (b : SegBuffers) (k : Nat) : Nat :=
  if 0 < ((chanBufs b).getD k []).length then
    (((chanBufs b).take k).map List.length).sum
  else 0

/-- The spec's description of duration resolution: the row-delta to the
next event for every event but the last, and last_row minus the start row
for the last event. -/
def durations : List FTNote → Nat → List Int
  | [], _ => []
  | [n], last_row => [(last_row : Int) - (n.row : Int)]
  | n :: m :: rest, last_row =>
    ((m.row : Int) - (n.row : Int)) :: durations (m :: rest) last_row

/-- Concrete input list for the overflow scenario: seventeen notes whose
consecutive row-deltas are 1..16 and whose final length against
last_row = 154 is 17, giving seventeen distinct durations. -/
def notes17 : List FTNote :=
  [⟨1, 4, 0, .sq1⟩, ⟨2, 4, 0, .sq1⟩, ⟨4, 4, 0, .sq1⟩, ⟨7, 4, 0, .sq1⟩,
   ⟨11, 4, 0, .sq1⟩, ⟨16, 4, 0, .sq1⟩, ⟨22, 4, 0, .sq1⟩, ⟨29, 4, 0, .sq1⟩,
   ⟨37, 4, 0, .sq1⟩, ⟨46, 4, 0, .sq1⟩, ⟨56, 4, 0, .sq1⟩, ⟨67, 4, 0, .sq1⟩,
   ⟨79, 4, 0, .sq1⟩, ⟨92, 4, 0, .sq1⟩, ⟨106, 4, 0, .sq1⟩, ⟨121, 4, 0, .sq1⟩,
   ⟨137, 4, 0, .sq1⟩]

/-- The spec's scenario rows on a pulse channel: C-3 at volume F for two
rows, a volume-0 row for three rows, then D-3 at volume F to segment
end. -/
def c2rows : List ChanText :=
  [⟨"C-", 3, "F"⟩, ⟨"..", 0, "."⟩, ⟨"..", 0, "0"⟩,
   ⟨"..", 0, "."⟩, ⟨"..", 0, "."⟩, ⟨"D-", 3, "F"⟩]

/-- Concrete line stream for the segment splitter: four ROW lines, the
second carrying marker C00 and the fourth carrying marker C01. -/
def exLines : List TLine :=
  [⟨true, none⟩, ⟨true, some 0⟩, ⟨true, none⟩, ⟨true, some 1⟩]

lemma mem_insertLen (ra : List Int) (x d : Int) :
    d ∈ insertLen ra x ↔ d ∈ ra ∨ d = x := by
  unfold insertLen
  split
  · rename_i hx
    constructor
    · exact Or.inl
    · rintro (h | rfl)
      · exact h
      · exact hx
  · simp

lemma prefix_insertLen (ra : List Int) (x : Int) : ra <+: insertLen ra x := by
  unfold insertLen
  split
  · exact List.prefix_refl ra
  · exact ⟨[x], rfl⟩

lemma nodup_insertLen (ra : List Int) (x : Int) (h : ra.Nodup) :
    (insertLen ra x).Nodup := by
  unfold insertLen
  split
  · exact h
  · rename_i hx
    simp [List.nodup_append, h, hx]

lemma prefix_foldl_insertLen (ds : List Int) :
    ∀ ra : List Int, ra <+: ds.foldl insertLen ra := by
  induction ds with
  | nil => intro ra; simp
  | cons d ds ih =>
    intro ra
    exact (prefix_insertLen ra d).trans (by simpa using ih (insertLen ra d))

lemma nodup_foldl_insertLen (ds : List Int) :
    ∀ ra : List Int, ra.Nodup → (ds.foldl insertLen ra).Nodup := by
  induction ds with
  | nil => intro ra h; simpa using h
  | cons d ds ih =>
    intro ra h
    simpa using ih (insertLen ra d) (nodup_insertLen ra d h)

lemma mem_foldl_insertLen (ds : List Int) :
    ∀ (ra : List Int) (d : Int), d ∈ ds.foldl insertLen ra ↔ d ∈ ra ∨ d ∈ ds := by
  induction ds with
  | nil => intro ra d; simp
  | cons x ds ih =>
    intro ra d
    rw [List.foldl_cons, ih (insertLen ra x) d, mem_insertLen]
    simp [or_assoc]

lemma set_note_lengths_spec (notes : List FTNote) :
    ∀ (lr : Nat) (ra : List Int),
      (set_note_lengths notes lr ra).1.map FTNote.length = durations notes lr ∧
      (set_note_lengths notes lr ra).1.map FTNote.row = notes.map FTNote.row ∧
      (set_note_lengths notes lr ra).2 = (durations notes lr).foldl insertLen ra := by
  induction notes with
  | nil => intro lr ra; simp [set_note_lengths, durations]
  | cons n rest ih =>
    intro lr ra
    cases rest with
    | nil => simp [set_note_lengths, durations]
    | cons m rest2 =>
      have h := ih lr (insertLen ra ((m.row : Int) - (n.row : Int)))
      simp only [set_note_lengths, durations, List.map_cons, List.foldl_cons]
      exact ⟨by rw [h.1], by rw [h.2.1]; simp, by rw [h.2.2]⟩

/-- C3 (amended): after set_note_lengths, each event's length is the
row-delta to the next event of the channel and the final event's length
is the segment row count minus the event's start row (rows are 1-based,
so an event starting on the last row gets length 0, not 1); the rest
array grows by exactly the first-seen-ordered fold of the duration list,
keeping its old entries as a prefix, staying duplicate-free, and holding
exactly the old entries plus the durations. -/
theorem duration_resolution_table (notes : List FTNote) (lr : Nat)
    (ra0 : List Int) (_hne : notes ≠ []) (hnd : ra0.Nodup) :
    (set_note_lengths notes lr ra0).1.map FTNote.length = durations notes lr ∧
    (set_note_lengths notes lr ra0).1.map FTNote.row = notes.map FTNote.row ∧
    (set_note_lengths notes lr ra0).2 = (durations notes lr).foldl insertLen ra0 ∧
    ra0 <+: (set_note_lengths notes lr ra0).2 ∧
    (set_note_lengths notes lr ra0).2.Nodup ∧
    ∀ d, d ∈ (set_note_lengths notes lr ra0).2 ↔ d ∈ ra0 ∨ d ∈ durations notes lr := by
  have h := set_note_lengths_spec notes lr ra0
  refine ⟨h.1, h.2.1, h.2.2, ?_, ?_, ?_⟩
  · rw [h.2.2]; exact prefix_foldl_insertLen _ ra0
  · rw [h.2.2]; exact nodup_foldl_insertLen _ ra0 hnd
  · intro d; rw [h.2.2]; exact mem_foldl_insertLen _ ra0 d

/-- Witness for duration_resolution_table at a concrete two-note channel. -/
theorem duration_resolution_table_witness :
    (set_note_lengths [⟨1, 48, 0, .sq1⟩, ⟨3, 126, 0, .sq1⟩] 4 []).1.map FTNote.length =
      durations [⟨1, 48, 0, .sq1⟩, ⟨3, 126, 0, .sq1⟩] 4 ∧
    (set_note_lengths [⟨1, 48, 0, .sq1⟩, ⟨3, 126, 0, .sq1⟩] 4 []).1.map FTNote.row =
      ([⟨1, 48, 0, .sq1⟩, ⟨3, 126, 0, .sq1⟩] : List FTNote).map FTNote.row ∧
    (set_note_lengths [⟨1, 48, 0, .sq1⟩, ⟨3, 126, 0, .sq1⟩] 4 []).2 =
      (durations [⟨1, 48, 0, .sq1⟩, ⟨3, 126, 0, .sq1⟩] 4).foldl insertLen [] ∧
    ([] : List Int) <+: (set_note_lengths [⟨1, 48, 0, .sq1⟩, ⟨3, 126, 0, .sq1⟩] 4 []).2 ∧
    (set_note_lengths [⟨1, 48, 0, .sq1⟩, ⟨3, 126, 0, .sq1⟩] 4 []).2.Nodup ∧
    ∀ d, d ∈ (set_note_lengths [⟨1, 48, 0, .sq1⟩, ⟨3, 126, 0, .sq1⟩] 4 []).2 ↔
      d ∈ ([] : List Int) ∨ d ∈ durations [⟨1, 48, 0, .sq1⟩, ⟨3, 126, 0, .sq1⟩] 4 :=
  duration_resolution_table _ 4 [] (by decide) (by decide)

/-- C3 counterexample: a single-row channel yields one event whose
duration is 0, not 1, although the event starts on the segment's last
row. -/
theorem last_row_event_duration_zero_cex :
    (run_channel .sq1 [⟨"C-", 3, "F"⟩] (none, none)).map
      (fun r => r.1.map FTNote.length) = some [0] ∧ (0 : Int) ≠ 1 := by decide

/-- C1: seventeen distinct durations in one segment do NOT abort
processing.  set_note_lengths completes, leaves a 17-entry rest array,
and create_buffer still produces a full byte stream containing the
out-of-range length opcode 0xB0 = 0xA0 | 16 (the source only prints a
warning at this point). -/
theorem overflow_warns_and_still_emits :
    (set_note_lengths notes17 154 []).2 =
      ([1, 2, 3, 4, 5, 6, 7, 8, 9, 10, 11, 12, 13, 14, 15, 16, 17] : List Int) ∧
    (set_note_lengths notes17 154 []).2.length = 17 ∧
    create_buffer .sq1 (set_note_lengths notes17 154 []).1
        (set_note_lengths notes17 154 []).2 =
      some [0xa0, 4, 0xa1, 4, 0xa2, 4, 0xa3, 4, 0xa4, 4, 0xa5, 4, 0xa6, 4,
            0xa7, 4, 0xa8, 4, 0xa9, 4, 0xaa, 4, 0xab, 4, 0xac, 4, 0xad, 4,
            0xae, 4, 0xaf, 4, 0xb0, 4] ∧
    0xb0 ∈ [0xa0, 4, 0xa1, 4, 0xa2, 4, 0xa3, 4, 0xa4, 4, 0xa5, 4, 0xa6, 4,
            0xa7, 4, 0xa8, 4, 0xa9, 4, 0xaa, 4, 0xab, 4, 0xac, 4, 0xad, 4,
            0xae, 4, 0xaf, 4, 0xb0, 4] := by decide

/-- C2 counterexample: on the spec's scenario rows the produced buffer is
A0 30 A1 7E A2 34, not the claimed A0 00 A1 7E A2 02 (C-3 maps to 0x30
and D-3 to 0x34 under index*2 + (octave-1)*24). -/
theorem scenario_buffer_cex :
    (run_channel .sq1 c2rows (none, none)).map (fun r => r.2.2) =
      some [0xa0, 0x30, 0xa1, 0x7e, 0xa2, 0x34] ∧
    some ([0xa0, 0x30, 0xa1, 0x7e, 0xa2, 0x34] : List Nat) ≠
      some [0xa0, 0x00, 0xa1, 0x7e, 0xa2, 0x02] := by decide

/-- C2 (amended): the scenario rows yield the events
Sounding(code 48, dur 2), Rest(dur 3), Sounding(code 52, dur 0), the
Note Table [2, 3, 0] in that order, and the buffer
A0 30 A1 7E A2 34 (the final event starts on the last 1-based row, so
its duration is 0, and pulse note codes include the octave term). -/
theorem scenario_events_table_buffer :
    run_channel .sq1 c2rows (none, none) =
      some ([⟨1, 48, 2, .sq1⟩, ⟨3, 0x7e, 3, .sq1⟩, ⟨6, 52, 0, .sq1⟩],
        [2, 3, 0], [0xa0, 0x30, 0xa1, 0x7e, 0xa2, 0x34]) := by decide

lemma lor_a0 (i : Nat) (h : i < 32) : i ||| 0xa0 = i + 0xa0 := by
  interval_cases i <;> rfl

lemma indexOfOpt_getD {α : Type} [DecidableEq α] :
    ∀ (l : List α) (a : α) (i : Nat) (d : α),
      indexOfOpt l a = some i → l.getD i d = a := by
  intro l
  induction l with
  | nil => intro a i d h; simp [indexOfOpt] at h
  | cons x xs ih =>
    intro a i d h
    unfold indexOfOpt at h
    split at h
    · rename_i hx
      injection h with h0
      subst h0
      simpa using hx
    · cases hi : indexOfOpt xs a with
      | none => rw [hi] at h; simp at h
      | some j =>
        rw [hi] at h
        simp at h
        subst h
        simpa using ih a j d hi

lemma specDecode_encodeFrom (ra : List Int) :
    ∀ (notes : List FTNote) (ll : Int) (buf : List Nat),
      encodeFrom ra notes ll = some buf →
      (∀ n ∈ notes, n.notebyte < 0xa0) →
      (∀ n ∈ notes, (indexOfOpt ra n.length).getD 16 < 16) →
      specDecode ra buf ll = notes.map fun n => (n.notebyte, n.length) := by
  intro notes
  induction notes with
  | nil =>
    intro ll buf h _ _
    unfold encodeFrom at h
    cases h
    simp [specDecode]
  | cons n rest ih =>
    intro ll buf h hb hi
    have hbn : n.notebyte < 0xa0 := hb n (List.mem_cons_self n rest)
    have hbr : ∀ m ∈ rest, m.notebyte < 0xa0 :=
      fun m hm => hb m (List.mem_cons_of_mem n hm)
    have hir : ∀ m ∈ rest, (indexOfOpt ra m.length).getD 16 < 16 :=
      fun m hm => hi m (List.mem_cons_of_mem n hm)
    by_cases hl : n.length = ll
    · rw [encodeFrom, if_neg (by simpa using hl)] at h
      cases ht : encodeFrom ra rest ll with
      | none => rw [ht] at h; simp at h
      | some t =>
        rw [ht] at h
        simp at h
        subst h
        simp only [specDecode]
        rw [if_neg (by omega), List.map_cons]
        congr 1
        · rw [hl]
        · exact ih ll t ht hbr hir
    · rw [encodeFrom, if_pos hl] at h
      cases hio : indexOfOpt ra n.length with
      | none => rw [hio] at h; simp at h
      | some i =>
        rw [hio] at h
        cases ht : encodeFrom ra rest n.length with
        | none => rw [ht] at h; simp at h
        | some t =>
          rw [ht] at h
          simp at h
          subst h
          have hi16 : i < 16 := by
            have := hi n (List.mem_cons_self n rest)
            rw [hio] at this
            simpa using this
          simp only [specDecode]
          rw [lor_a0 i (by omega), if_pos (by omega),
            show i + 0xa0 - 0xa0 = i from by omega,
            indexOfOpt_getD ra n.length i ll hio,
            if_neg (by omega), List.map_cons]
          congr 1
          exact ih n.length t ht hbr hir

/-- C4 (amended): for every channel event list and Note Table produced by
encoding, provided every note code is below 0xA0 and every duration's
table index is below 16, decoding the generated byte stream with the
master-channel terminator byte removed (sq2 and nse buffers end in an
appended 0x00, which a byte-driven decoder would otherwise read as a
spurious note) reproduces the ordered (note_code, duration) sequence
exactly. -/
theorem decode_generated_buffer (w : WaveType) (notes : List FTNote)
    (ra : List Int) (buf : List Nat) (c0 : Int)
    (hb : ∀ n ∈ notes, n.notebyte < 0xa0)
    (hi : ∀ n ∈ notes, (indexOfOpt ra n.length).getD 16 < 16)
    (henc : create_buffer w notes ra = some buf) :
    specDecode ra (if w = .sq2 ∨ w = .nse then buf.dropLast else buf) c0 =
      notes.map fun n => (n.notebyte, n.length) := by
  cases notes with
  | nil =>
    unfold create_buffer at henc
    cases henc
    split <;> simp [specDecode]
  | cons n1 rest =>
    unfold create_buffer at henc
    cases hcore : bufferCore (n1 :: rest) ra with
    | none => rw [hcore] at henc; simp at henc
    | some core =>
      rw [hcore] at henc
      simp at henc
      have hstrip : (if w = .sq2 ∨ w = .nse then buf.dropLast else buf) = core := by
        rw [← henc]
        split
        · simp
        · simp
      rw [hstrip]
      cases hio : indexOfOpt ra n1.length with
      | none =>
        simp only [bufferCore, hio] at hcore
        simp at hcore
      | some i =>
        cases ht : encodeFrom ra rest n1.length with
        | none =>
          simp only [bufferCore, hio, ht] at hcore
          simp at hcore
        | some t =>
          simp only [bufferCore, hio, ht] at hcore
          simp at hcore
          subst hcore
          have hi16 : i < 16 := by
            have := hi n1 (List.mem_cons_self n1 rest)
            rw [hio] at this
            simpa using this
          have hb1 : n1.notebyte < 0xa0 := hb n1 (List.mem_cons_self n1 rest)
          simp only [specDecode]
          rw [lor_a0 i (by omega), if_pos (by omega),
            show i + 0xa0 - 0xa0 = i from by omega,
            indexOfOpt_getD ra n1.length i c0 hio,
            if_neg (by omega), List.map_cons]
          congr 1
          exact specDecode_encodeFrom ra rest n1.length t ht
            (fun m hm => hb m (List.mem_cons_of_mem n1 hm))
            (fun m hm => hi m (List.mem_cons_of_mem n1 hm))

/-- Witness for decode_generated_buffer on a concrete two-note sq1
channel. -/
theorem decode_generated_buffer_witness :
    specDecode [2, 1]
      (if WaveType.sq1 = .sq2 ∨ WaveType.sq1 = .nse then
        ([0xa0, 5, 0xa1, 7] : List Nat).dropLast
      else [0xa0, 5, 0xa1, 7]) 0 =
      ([⟨1, 5, 2, .sq1⟩, ⟨3, 7, 1, .sq1⟩] : List FTNote).map
        fun n => (n.notebyte, n.length) :=
  decode_generated_buffer .sq1 [⟨1, 5, 2, .sq1⟩, ⟨3, 7, 1, .sq1⟩] [2, 1]
    [0xa0, 5, 0xa1, 7] 0 (by decide) (by decide) (by decide)

/-- C4 counterexample: on the noise channel the generated stream ends in
the appended terminator 0x00, so decoding it as written in the claim
yields a spurious trailing (0, duration) pair and does not reproduce the
event sequence. -/
theorem decode_terminator_cex :
    create_buffer .nse [⟨1, 2, 4, .nse⟩] [4] = some [0xa0, 2, 0] ∧
    specDecode [4] [0xa0, 2, 0] 0 = [(2, 4), (0, 4)] ∧
    ([(2, 4), (0, 4)] : List (Nat × Int)) ≠
      ([⟨1, 2, 4, .nse⟩] : List FTNote).map (fun n => (n.notebyte, n.length)) := by
  decide

/-- C5: on the noise channel, a row with a blank note field and a present
non-zero volume, arriving while the most recent recorded noise note is a
Rest, appends a new Sounding event whose note code is copied from the
noise event recorded immediately before that Rest: the song-level carry
slot c2 holds that event when the channel has its own prior event (first
disjunct), and otherwise holds the previous segment's carried note
(second disjunct); either way the clone copies its code. -/
theorem noise_clone_copies_pre_rest_code (row : Nat) (ct : ChanText)
    (notes : List FTNote) (c2 : Option FTNote) (r p : FTNote)
    (hn : ct.note = "..") (hv1 : ct.volume ≠ ".") (hv0 : ct.volume ≠ "0")
    (hr : r.is_rest = true) (hp : p.is_rest = false) (hpw : p.wavetype = .nse)
    (hsrc : (2 ≤ notes.length ∧ notes.dropLast.getLast? = some p ∧ c2 = some p) ∨
            (notes.length ≤ 1 ∧ c2 = some p)) :
    parse_chan_text .nse row ct notes (some r, c2) =
      some (notes ++ [⟨row, p.notebyte, 0, .nse⟩],
        (some ⟨row, p.notebyte, 0, .nse⟩, some r)) ∧
    FTNote.is_rest ⟨row, p.notebyte, 0, .nse⟩ = false := by
  have hc2 : c2 = some p := by
    rcases hsrc with ⟨_, _, h⟩ | ⟨_, h⟩ <;> exact h
  subst hc2
  constructor
  · unfold parse_chan_text
    simp [hn, hv1, hv0, hr, mkFTNote]
  · have h2 := hp
    unfold FTNote.is_rest at h2 ⊢
    rw [hpw] at h2
    exact h2

/-- Witness for noise_clone_copies_pre_rest_code: a sounding noise note,
then a rest, then a volume-raise row cloning the sounding note's code. -/
theorem noise_clone_copies_pre_rest_code_witness :
    parse_chan_text .nse 3 ⟨"..", 0, "F"⟩ [⟨1, 2, 0, .nse⟩, ⟨2, 1, 0, .nse⟩]
        (some ⟨2, 1, 0, .nse⟩, some ⟨1, 2, 0, .nse⟩) =
      some ([⟨1, 2, 0, .nse⟩, ⟨2, 1, 0, .nse⟩, ⟨3, 2, 0, .nse⟩],
        (some ⟨3, 2, 0, .nse⟩, some ⟨2, 1, 0, .nse⟩)) ∧
    FTNote.is_rest ⟨3, 2, 0, .nse⟩ = false :=
  noise_clone_copies_pre_rest_code 3 ⟨"..", 0, "F"⟩
    [⟨1, 2, 0, .nse⟩, ⟨2, 1, 0, .nse⟩] (some ⟨1, 2, 0, .nse⟩)
    ⟨2, 1, 0, .nse⟩ ⟨1, 2, 0, .nse⟩ rfl (by decide) (by decide) (by decide)
    (by decide) rfl (Or.inl ⟨by decide, by decide, rfl⟩)

/-- C6 counterexample: a pulse-channel row naming pitch C-3 with volume 0
is classified as a Rest (note byte 0x7E), not as a Sounding note with the
computed code 48. -/
theorem pitch_with_zero_volume_cex :
    parse_chan_text .sq1 1 ⟨"C-", 3, "0"⟩ [] (none, none) =
      some ([⟨1, 0x7e, 0, .sq1⟩], (none, none)) ∧
    FTNote.is_rest ⟨1, 0x7e, 0, .sq1⟩ = true ∧
    (0x7e : Nat) ≠ 0 * 2 + (3 - 1) * 24 := by decide

/-- C6 (amended): on a pulse channel a row naming a pitch becomes a
Sounding event with code index*2 + (octave-1)*24 only when the volume
field is not "0"; an explicit volume "0" overrides even a newly named
pitch and yields a Rest, because the rest flag takes precedence in note
construction. -/
theorem pulse_pitch_vs_zero_volume (w : WaveType) (row : Nat) (ct : ChanText)
    (notes : List FTNote) (carry : NseCarry) (i : Nat)
    (hw : w = .sq1 ∨ w = .sq2)
    (hn1 : ct.note ≠ "..") (hn2 : ct.note ≠ "--")
    (hi : indexOfOpt NOTES ct.note = some i) :
    parse_chan_text w row ct notes carry =
      some (notes ++ [⟨row,
        (if ct.volume = "0" then 0x7e else i * 2 + (ct.octave - 1) * 24), 0, w⟩],
        carry) := by
  rcases hw with rfl | rfl <;>
  · unfold parse_chan_text
    by_cases hv : ct.volume = "0"
    · simp [hv, hn1, hn2, mkFTNote, get_rest]
    · simp [hv, hn1, hn2, mkFTNote, hi]

/-- Witness for pulse_pitch_vs_zero_volume at C-3 volume F on sq1. -/
theorem pulse_pitch_vs_zero_volume_witness :
    parse_chan_text .sq1 5 ⟨"C-", 3, "F"⟩ [] (none, none) =
      some ([⟨5,
        (if ("F" : String) = "0" then 0x7e else 0 * 2 + ((3 : Nat) - 1) * 24),
        0, .sq1⟩], (none, none)) :=
  pulse_pitch_vs_zero_volume .sq1 5 ⟨"C-", 3, "F"⟩ [] (none, none) 0
    (Or.inl rfl) (by decide) (by decide) (by decide)

/-- C7 counterexample: a segment whose noise channel records no event
produces an empty noise buffer, which does not end in the terminator
0x00. -/
theorem empty_noise_channel_no_terminator_cex :
    run_channel .nse [⟨"..", 0, "."⟩] (none, none) = some ([], [], []) ∧
    (([] : List Nat).getLast? ≠ some 0) := by decide

/-- C7 (amended): for every channel with at least one event, the buffer
is the core encoding followed by the terminator byte 0x00 exactly when
the channel is sq2 or nse; such buffers end in 0x00 and all other
channels' buffers are exactly the core with nothing appended. -/
theorem terminator_iff_master (w : WaveType) (notes : List FTNote)
    (ra : List Int) (buf : List Nat) (hne : notes ≠ [])
    (h : create_buffer w notes ra = some buf) :
    ∃ core, bufferCore notes ra = some core ∧
      buf = core ++ (if w = .sq2 ∨ w = .nse then [0] else []) ∧
      ((w = .sq2 ∨ w = .nse) → buf.getLast? = some 0) ∧
      (¬(w = .sq2 ∨ w = .nse) → buf = core) := by
  cases notes with
  | nil => exact absurd rfl hne
  | cons n1 rest =>
    unfold create_buffer at h
    cases hcore : bufferCore (n1 :: rest) ra with
    | none => rw [hcore] at h; simp at h
    | some core =>
      rw [hcore] at h
      simp at h
      refine ⟨core, rfl, by rw [← h], ?_, ?_⟩
      · intro hm
        rw [← h, if_pos hm]
        simp
      · intro hm
        rw [← h, if_neg hm]
        simp

/-- Witness for terminator_iff_master on a one-note noise channel. -/
theorem terminator_iff_master_witness :
    ∃ core, bufferCore [⟨1, 2, 4, .nse⟩] [4] = some core ∧
      ([0xa0, 2, 0] : List Nat) =
        core ++ (if WaveType.nse = .sq2 ∨ WaveType.nse = .nse then [0] else []) ∧
      ((WaveType.nse = .sq2 ∨ WaveType.nse = .nse) →
        ([0xa0, 2, 0] : List Nat).getLast? = some 0) ∧
      (¬(WaveType.nse = .sq2 ∨ WaveType.nse = .nse) →
        ([0xa0, 2, 0] : List Nat) = core) :=
  terminator_iff_master .nse [⟨1, 2, 4, .nse⟩] [4] [0xa0, 2, 0]
    (by decide) (by decide)

lemma getSegmentsAux_spec (lines : List TLine) :
    ∀ (fuel n : Nat) (s : Int) (k : Nat) (b1 : Int × Int),
      (getSegmentsAux lines fuel n s)[k]? = some b1 →
      (∃ i, findMarker lines (n + k) = some i ∧ b1.2 = rfindRowI lines i) ∧
      (∀ b2, (getSegmentsAux lines fuel n s)[k + 1]? = some b2 → b2.1 = b1.2) ∧
      (k = 0 → b1.1 = s) := by
  intro fuel
  induction fuel with
  | zero =>
    intro n s k b1 h
    simp [getSegmentsAux] at h
  | succ fuel ih =>
    intro n s k b1 h
    cases hm : findMarker lines n with
    | none =>
      simp only [getSegmentsAux, hm] at h
      simp at h
    | some i =>
      simp only [getSegmentsAux, hm] at h
      cases k with
      | zero =>
        simp only [List.getElem?_cons_zero, Option.some.injEq] at h
        subst h
        refine ⟨⟨i, by simpa using hm, rfl⟩, ?_, fun _ => rfl⟩
        intro b2 h2
        simp only [getSegmentsAux, hm, List.getElem?_cons_succ] at h2
        exact (ih (n + 1) (rfindRowI lines i) 0 b2 h2).2.2 rfl
      | succ k =>
        simp only [List.getElem?_cons_succ] at h
        obtain ⟨hA, hB, _⟩ := ih (n + 1) (rfindRowI lines i) k b1 h
        refine ⟨?_, ?_, ?_⟩
        · obtain ⟨j, hj, hb⟩ := hA
          refine ⟨j, ?_, hb⟩
          rw [show n + (k + 1) = n + 1 + k from by omega]
          exact hj
        · intro b2 h2
          simp only [getSegmentsAux, hm, List.getElem?_cons_succ] at h2
          exact hB b2 h2
        · intro hk
          exact absurd hk (by omega)

/-- C8 (amended): the segment splitter locates markers C00, C01, ... in
increasing numeric order; segment N's bound ends exactly at the line
index of marker C N's row (so segment N holds the rows strictly before
the marker's row), and segment N+1 starts at that same marker row — the
marker's row belongs to segment N+1's slice, not to no segment. -/
theorem segment_bound_at_marker_row (lines : List TLine)
    (bounds : List (Int × Int)) (h : get_segments lines = some bounds)
    (k : Nat) (b1 : Int × Int) (h1 : bounds[k]? = some b1) :
    (∃ i, findMarker lines k = some i ∧ b1.2 = rfindRowI lines i) ∧
    (∀ b2, bounds[k + 1]? = some b2 → b2.1 = b1.2) := by
  unfold get_segments at h
  cases hf : lines.findIdx? (fun l => l.isRow) with
  | none => rw [hf] at h; simp at h
  | some s =>
    rw [hf] at h
    simp at h
    subst h
    have hs := getSegmentsAux_spec lines (lines.length + 1) 0 (s : Int) k b1 h1
    exact ⟨by simpa using hs.1, hs.2.1⟩

/-- Witness for segment_bound_at_marker_row on the concrete line stream. -/
theorem segment_bound_at_marker_row_witness :
    (∃ i, findMarker exLines 0 = some i ∧
      (((0 : Int), (1 : Int)) : Int × Int).2 = rfindRowI exLines i) ∧
    (∀ b2, (([(0, 1), (1, 3)] : List (Int × Int)))[0 + 1]? = some b2 →
      b2.1 = (((0 : Int), (1 : Int)) : Int × Int).2) :=
  segment_bound_at_marker_row exLines [(0, 1), (1, 3)] (by decide) 0 (0, 1)
    (by decide)

/-- C8 counterexample: marker C00 sits on line 1; segment 0's rows are
just line 0, while segment 1's slice [1, 3) contains the marker's own row
(line 1) — contrary to the claim that the row following the marker's row
starts segment 1 and that the marker's row belongs to no segment. -/
theorem marker_row_in_next_segment_cex :
    get_segments exLines = some [(0, 1), (1, 3)] ∧
    findMarker exLines 0 = some 1 ∧
    rowIdxIn exLines 0 1 = [0] ∧
    rowIdxIn exLines 1 3 = [1, 2] ∧
    1 ∈ rowIdxIn exLines 1 3 := by decide

/-- C9: the segment blob is the concatenation of the channel buffers in
the fixed order sq2, sq1, tri, nse, dpcm; each code-side offset equals
the spec-side offset (sum of the lengths of all preceding buffers when
the channel's buffer is non-empty, else 0); and a channel with zero
classified events produces an empty buffer. -/
theorem segment_layout_offsets :
    (∀ b : SegBuffers, segdata b = (chanBufs b).flatten ∧
      sq1off b = specOffset b 1 ∧ trioff b = specOffset b 2 ∧
      nseoff b = specOffset b 3 ∧ dpcmoff b = specOffset b 4) ∧
    (∀ (w : WaveType) (ra : List Int), create_buffer w [] ra = some []) := by
  constructor
  · intro b
    refine ⟨?_, ?_, ?_, ?_, ?_⟩
    · simp [segdata, chanBufs]
    · simp [sq1off, specOffset, chanBufs]
    · simp [trioff, specOffset, chanBufs]
    · simp [nseoff, specOffset, chanBufs, Nat.add_assoc]
    · simp [dpcmoff, specOffset, chanBufs, Nat.add_assoc]
  · intro w ra
    rfl

/-- C10: clone classification on the noise channel is partial.  With a
blank note field and a volume that is neither "." nor "0", classification
dereferences the song's most recent noise note: when none was ever
recorded the operation fails (None dereference), and when the most recent
note is a Rest but the song-level second slot is empty and the channel
holds fewer than two notes, the notes[-2] lookup fails (IndexError);
neither case produces an event or a defined error. -/
theorem clone_lookup_undefined :
    (∀ (row : Nat) (ct : ChanText) (notes : List FTNote) (c2 : Option FTNote),
      ct.note = ".." → ct.volume ≠ "." → ct.volume ≠ "0" →
      parse_chan_text .nse row ct notes (none, c2) = none) ∧
    (∀ (row : Nat) (ct : ChanText) (notes : List FTNote) (r : FTNote),
      ct.note = ".." → ct.volume ≠ "." → ct.volume ≠ "0" →
      r.is_rest = true → notes.length ≤ 1 →
      parse_chan_text .nse row ct notes (some r, none) = none) := by
  constructor
  · intro row ct notes c2 hn hv1 hv0
    unfold parse_chan_text
    simp [hn, hv1, hv0]
  · intro row ct notes r hn hv1 hv0 hr hlen
    unfold parse_chan_text
    have h2 : notes.reverse[1]? = none := by
      apply List.getElem?_eq_none
      simpa using hlen
    simp [hn, hv1, hv0, hr, h2]

/-- Witness for clone_lookup_undefined: the very first noise row of a song
with a raised volume, and a one-note channel whose only note is a rest
with an empty song-level second slot. -/
theorem clone_lookup_undefined_witness :
    parse_chan_text .nse 1 ⟨"..", 0, "F"⟩ [] (none, none) = none ∧
    parse_chan_text .nse 2 ⟨"..", 0, "F"⟩ [⟨1, 1, 0, .nse⟩]
      (some ⟨1, 1, 0, .nse⟩, none) = none :=
  ⟨clone_lookup_undefined.1 1 ⟨"..", 0, "F"⟩ [] none rfl (by decide) (by decide),
   clone_lookup_undefined.2 2 ⟨"..", 0, "F"⟩ [⟨1, 1, 0, .nse⟩] ⟨1, 1, 0, .nse⟩
     rfl (by decide) (by decide) (by decide) (by decide)⟩
